import Mathlib

/-!
Shallow embedding of the consensus engines (`src/c3_consensus`) and fork-choice
rules (`src/c2_blockchain/p5_fork_choice.rs`) of the repository.

Conventions:
* Rust `u64` values are modelled as `Nat`; `% 2^64` appears exactly where the
  source's arithmetic can wrap (the heaviest-chain work sum).
* A Rust panic (`expect`, `unwrap`, division by zero in `%`) is modelled by
  `none` in an outer `Option` layer: `validate` becomes `Option Bool`
  (`none` = panic) and `seal` becomes `Option (Option (Header D))`
  (outer `none` = panic, inner `none` = Rust's `None`).
* The PoW engine (`p1_pow`) is external to the sources at hand; it is taken as
  an arbitrary `ConsensusEngine Nat` parameter, matching the spec's description
  of it as an opaque engine with `Digest = u64`.
-/

/-- The authority identity token from the module root of `c3_consensus`
(an opaque enumerable identity: Alice, Bob, Charlie). -/
inductive ConsensusAuthority where
  | Alice
  | Bob
  | Charlie
deriving DecidableEq, Repr

/-- The block header, parameterized by the consensus digest type.
All `u64` fields are modelled as `Nat`. -/
structure Header (D : Type) where
  parent : Nat
  height : Nat
  state_root : Nat
  extrinsics_root : Nat
  consensus_digest : D
deriving DecidableEq, Repr

/-- The `Consensus` trait: `validate` and `seal`, with panics modelled as the
outer `none`. -/
structure ConsensusEngine (D : Type) where
  validate : D → Header D → Option Bool
  «seal» : D → Header Unit → Option (Option (Header D))

/-- Rebuild a header with a new digest, keeping every other field
(the pattern used throughout the source when re-stamping headers). -/
def Header.withDigest {D D' : Type} (h : Header D) (d : D') : Header D' :=
  { parent := h.parent
    height := h.height
    state_root := h.state_root
    extrinsics_root := h.extrinsics_root
    consensus_digest := d }

/-- `DictatorConsensus` from `p2_dictator.rs`: a single fixed authority. -/
structure DictatorConsensus where
  dictator : ConsensusAuthority

/-- `DictatorConsensus::validate`: the header is valid iff its digest is the
dictator. No height check. -/
def DictatorConsensus.validate (s : DictatorConsensus) (_pd : ConsensusAuthority)
    (h : Header ConsensusAuthority) : Option Bool :=
  some (decide (h.consensus_digest = s.dictator))

/-- `DictatorConsensus::seal`: always stamp the dictator's identity. -/
def DictatorConsensus.«seal» (s : DictatorConsensus) (_pd : ConsensusAuthority)
    (ph : Header Unit) : Option (Option (Header ConsensusAuthority)) :=
  some (some (ph.withDigest s.dictator))

def DictatorConsensus.engine (s : DictatorConsensus) :
    ConsensusEngine ConsensusAuthority :=
  ⟨s.validate, s.«seal»⟩

/-- `SimplePoa` from `p3_poa.rs`: any authority in the list may sign. -/
structure SimplePoa where
  authorities : List ConsensusAuthority

/-- `SimplePoa::validate`: membership of the digest in the authority list.
No height check. -/
def SimplePoa.validate (s : SimplePoa) (_pd : ConsensusAuthority)
    (h : Header ConsensusAuthority) : Option Bool :=
  some (decide (h.consensus_digest ∈ s.authorities))

/-- `SimplePoa::seal`: `None` on an empty authority list, else stamp
`authorities[0]`. -/
def SimplePoa.«seal» (s : SimplePoa) (_pd : ConsensusAuthority)
    (ph : Header Unit) : Option (Option (Header ConsensusAuthority)) :=
  if s.authorities.isEmpty then
    some none
  else
    some (some (ph.withDigest (s.authorities.getD 0 ConsensusAuthority.Alice)))

def SimplePoa.engine (s : SimplePoa) : ConsensusEngine ConsensusAuthority :=
  ⟨s.validate, s.«seal»⟩

/-- `PoaRoundRobinByHeight` from `p3_poa.rs`. -/
structure PoaRoundRobinByHeight where
  authorities : List ConsensusAuthority

/-- `PoaRoundRobinByHeight::validate`: height 0 is always valid; otherwise the
digest must equal `authorities[(height-1) % len]`. The source computes
`% self.authorities.len()` without an emptiness guard, so an empty list at
non-genesis height is a division-by-zero panic (outer `none`). -/
def PoaRoundRobinByHeight.validate (s : PoaRoundRobinByHeight)
    (_pd : ConsensusAuthority) (h : Header ConsensusAuthority) : Option Bool :=
  if h.height = 0 then
    some true
  else if s.authorities.isEmpty then
    none
  else
    let pos := (h.height - 1) % s.authorities.length
    some (decide (s.authorities.getD pos ConsensusAuthority.Alice = h.consensus_digest))

/-- `PoaRoundRobinByHeight::seal`: `None` at genesis; otherwise stamp
`authorities[(height-1) % len]` (panic on an empty list, as in `validate`). -/
def PoaRoundRobinByHeight.«seal» (s : PoaRoundRobinByHeight)
    (_pd : ConsensusAuthority) (ph : Header Unit) :
    Option (Option (Header ConsensusAuthority)) :=
  if ph.height = 0 then
    some none
  else if s.authorities.isEmpty then
    none
  else
    let pos := (ph.height - 1) % s.authorities.length
    some (some (ph.withDigest (s.authorities.getD pos ConsensusAuthority.Alice)))

def PoaRoundRobinByHeight.engine (s : PoaRoundRobinByHeight) :
    ConsensusEngine ConsensusAuthority :=
  ⟨s.validate, s.«seal»⟩

/-- `SlotDigest` from `p3_poa.rs`: slot number plus signature. -/
structure SlotDigest where
  slot : Nat
  signature : ConsensusAuthority
deriving DecidableEq, Repr

/-- `PoaRoundRobinBySlot` from `p3_poa.rs`. -/
structure PoaRoundRobinBySlot where
  authorities : List ConsensusAuthority

/-- `PoaRoundRobinBySlot::validate`: height 0 is always valid; an empty
authority list is rejected; then `slot.checked_sub(1).expect(..)` panics when
the slot is 0 (outer `none`), and otherwise the signer must be
`authorities[(slot-1) % len]` and the slot strictly greater than the parent's. -/
def PoaRoundRobinBySlot.validate (s : PoaRoundRobinBySlot)
    (pd : SlotDigest) (h : Header SlotDigest) : Option Bool :=
  if h.height = 0 then
    some true
  else if s.authorities.isEmpty then
    some false
  else if h.consensus_digest.slot = 0 then
    none
  else
    let pos := (h.consensus_digest.slot - 1) % s.authorities.length
    let expected_authority := s.authorities.getD pos ConsensusAuthority.Alice
    some (decide (expected_authority = h.consensus_digest.signature
      ∧ pd.slot < h.consensus_digest.slot))

/-- `PoaRoundRobinBySlot::seal`: `None` at genesis or on an empty authority
list; otherwise advance the parent slot by one and stamp the authority at
`(slot-1) % len`. -/
def PoaRoundRobinBySlot.«seal» (s : PoaRoundRobinBySlot) (pd : SlotDigest)
    (ph : Header Unit) : Option (Option (Header SlotDigest)) :=
  if ph.height = 0 ∨ s.authorities.isEmpty then
    some none
  else
    let slot := pd.slot + 1
    let pos := (slot - 1) % s.authorities.length
    let signature := s.authorities.getD pos ConsensusAuthority.Alice
    some (some (ph.withDigest ⟨slot, signature⟩))

def PoaRoundRobinBySlot.engine (s : PoaRoundRobinBySlot) :
    ConsensusEngine SlotDigest :=
  ⟨s.validate, s.«seal»⟩

/-- `EvenOnly` from `p4_even_only.rs`: a decorator over an arbitrary inner
engine. -/
structure EvenOnly (D : Type) where
  inner : ConsensusEngine D

/-- `EvenOnly::validate`: the inner engine is consulted first; on inner
rejection return `false`, otherwise require an even `state_root`. -/
def EvenOnly.validate {D : Type} (s : EvenOnly D) (pd : D) (h : Header D) :
    Option Bool :=
  match s.inner.validate pd h with
  | none => none
  | some false => some false
  | some true => some (decide (h.state_root % 2 = 0))

/-- `EvenOnly::seal`: `None` when the partial header's `state_root` is odd,
else delegate to the inner engine. -/
def EvenOnly.«seal» {D : Type} (s : EvenOnly D) (pd : D) (ph : Header Unit) :
    Option (Option (Header D)) :=
  if ph.state_root % 2 ≠ 0 then
    some none
  else
    s.inner.«seal» pd ph

def EvenOnly.engine {D : Type} (s : EvenOnly D) : ConsensusEngine D :=
  ⟨s.validate, s.«seal»⟩

/-- `PowOrPoaDigest` from `p5_interleave.rs`: the unified sum-type digest. -/
inductive PowOrPoaDigest where
  | Pow (nonce : Nat)
  | Poa (authority : ConsensusAuthority)
deriving DecidableEq, Repr

/-- `TryFrom<PowOrPoaDigest> for u64`: project onto the PoW nonce. -/
def PowOrPoaDigest.tryIntoPow : PowOrPoaDigest → Option Nat
  | .Pow nonce => some nonce
  | _ => none

/-- `TryFrom<PowOrPoaDigest> for ConsensusAuthority`: project onto the PoA
signature. -/
def PowOrPoaDigest.tryIntoPoa : PowOrPoaDigest → Option ConsensusAuthority
  | .Poa authority => some authority
  | _ => none

/-- `AlternatingPowPoa` from `p5_interleave.rs`. The PoW engine is external
(`p1_pow`), so it is carried as an opaque `ConsensusEngine Nat`. -/
structure AlternatingPowPoa where
  pow : ConsensusEngine Nat
  poa : SimplePoa

/-- `AlternatingPowPoa::validate`: even heights take the PoA path, odd heights
the PoW path; a digest of the wrong variant is rejected with `false` before
either inner engine runs; otherwise the matching engine validates the
reconstructed monomorphic header (the parent digest passed down is the
sentinel `Alice` resp. `0`, as in the source). -/
def AlternatingPowPoa.validate (s : AlternatingPowPoa) (_pd : PowOrPoaDigest)
    (h : Header PowOrPoaDigest) : Option Bool :=
  if h.height % 2 = 0 then
    match h.consensus_digest.tryIntoPoa with
    | none => some false
    | some a => s.poa.validate ConsensusAuthority.Alice (h.withDigest a)
  else
    match h.consensus_digest.tryIntoPow with
    | none => some false
    | some n => s.pow.validate 0 (h.withDigest n)

/-- `AlternatingPowPoa::seal`: delegate by height parity and `.unwrap()` the
inner result — so an inner `None` is a panic (outer `none`), not a `None`
return. -/
def AlternatingPowPoa.«seal» (s : AlternatingPowPoa) (_pd : PowOrPoaDigest)
    (ph : Header Unit) : Option (Option (Header PowOrPoaDigest)) :=
  if ph.height % 2 = 0 then
    match s.poa.«seal» ConsensusAuthority.Alice ph with
    | none => none
    | some none => none
    | some (some h) => some (some (h.withDigest (PowOrPoaDigest.Poa h.consensus_digest)))
  else
    match s.pow.«seal» 0 ph with
    | none => none
    | some none => none
    | some (some h) => some (some (h.withDigest (PowOrPoaDigest.Pow h.consensus_digest)))

def AlternatingPowPoa.engine (s : AlternatingPowPoa) :
    ConsensusEngine PowOrPoaDigest :=
  ⟨s.validate, s.«seal»⟩

/-!
## Fork choice (`src/c2_blockchain/p5_fork_choice.rs`)

The fork-choice code touches headers only through their count and the external
`hash` function, so the hash is carried as an explicit parameter
`hashH : Header Nat → Nat` (the chapter-2 header carries a `u64` digest).
-/

/-- `THRESHOLD` from `p5_fork_choice.rs`: `u64::max_value() / 100`. -/
def THRESHOLD : Nat := (2 ^ 64 - 1) / 100

/-- One step of Rust's `Iterator::max_by` fold: keep the current maximum,
and on a tie take the later element. -/
def maxStep {α : Type} (f : α → Nat) (best y : α) : α :=
  if f y < f best then best else y

/-- Rust's `iter().max_by_key(f)` over a slice: `none` on the empty slice
(where the source's `.unwrap()` panics); otherwise the fold above, which
returns the last of several equally-maximal elements. -/
def maxByKeyLast {α : Type} (f : α → Nat) : List α → Option α
  | [] => none
  | x :: xs => some (xs.foldl (maxStep f) x)

/-- Per-header work: `THRESHOLD.checked_sub(hash(h)).unwrap_or(0)`.
Truncated `Nat` subtraction is exactly that saturating subtraction. -/
def headerWork (hashH : Header Nat → Nat) (h : Header Nat) : Nat :=
  THRESHOLD - hashH h

/-- The accumulated work of a chain as the source computes it: a `u64`
`.sum()`, i.e. addition wrapping modulo `2^64`. -/
def chainWork64 (hashH : Header Nat → Nat) (chain : List (Header Nat)) : Nat :=
  chain.foldl (fun acc h => (acc + headerWork hashH h) % 2 ^ 64) 0

/-- The chain work as the spec's words describe it: the exact, non-wrapping
sum of the per-header works. Used to compare the source's `u64` sum against
the spec's "the sum does not wrap". -/
def specChainWork (hashH : Header Nat → Nat) (chain : List (Header Nat)) : Nat :=
  (chain.map (headerWork hashH)).sum

/-- `chain.iter().filter(|h| hash(h) % 2 == 0).count()`. -/
def evenHashCount (hashH : Header Nat → Nat) (chain : List (Header Nat)) : Nat :=
  (chain.filter (fun h => decide (hashH h % 2 = 0))).length

namespace LongestChainRule

/-- `LongestChainRule::first_chain_is_better`: strictly longer is better. -/
def first_chain_is_better (chain_1 chain_2 : List (Header Nat)) : Bool :=
  decide (chain_2.length < chain_1.length)

/-- `LongestChainRule::best_chain`: `max_by_key` on chain length. -/
def best_chain (candidate_chains : List (List (Header Nat))) :
    Option (List (Header Nat)) :=
  maxByKeyLast List.length candidate_chains

end LongestChainRule

namespace HeaviestChainRule

/-- `HeaviestChainRule::first_chain_is_better`: more accumulated work wins. -/
def first_chain_is_better (hashH : Header Nat → Nat)
    (chain_1 chain_2 : List (Header Nat)) : Bool :=
  decide (chainWork64 hashH chain_2 < chainWork64 hashH chain_1)

/-- `HeaviestChainRule::best_chain`: `max_by_key` on accumulated work. -/
def best_chain (hashH : Header Nat → Nat)
    (candidate_chains : List (List (Header Nat))) : Option (List (Header Nat)) :=
  maxByKeyLast (chainWork64 hashH) candidate_chains

end HeaviestChainRule

namespace MostBlocksWithEvenHash

/-- `MostBlocksWithEvenHash::first_chain_is_better`: more even hashes win. -/
def first_chain_is_better (hashH : Header Nat → Nat)
    (chain_1 chain_2 : List (Header Nat)) : Bool :=
  decide (evenHashCount hashH chain_2 < evenHashCount hashH chain_1)

/-- `MostBlocksWithEvenHash::best_chain`: `max_by_key` on the even-hash
count. -/
def best_chain (hashH : Header Nat → Nat)
    (candidate_chains : List (List (Header Nat))) : Option (List (Header Nat)) :=
  maxByKeyLast (evenHashCount hashH) candidate_chains

end MostBlocksWithEvenHash

/-- `m` is the LAST maximum of `l` under score `f`: everything before it
scores no higher, everything after it scores strictly lower. -/
def IsLastMaxBy {α : Type} (f : α → Nat) (l : List α) (m : α) : Prop :=
  ∃ l₁ l₂, l = l₁ ++ m :: l₂ ∧ (∀ a ∈ l₁, f a ≤ f m) ∧ (∀ a ∈ l₂, f a < f m)

/-- A stand-in PoW engine, used only to instantiate the opaque `pow`
parameter of `AlternatingPowPoa` in concrete evaluations. -/
def trivialPowEngine : ConsensusEngine Nat where
  validate := fun _ _ => some true
  «seal» := fun _ ph => some (some (ph.withDigest 0))

/-- The frame property of `seal`: a successfully sealed header keeps the
partial header's `parent`, `height`, `state_root` and `extrinsics_root`. -/
def PreservesFrame {D : Type} (e : ConsensusEngine D) : Prop :=
  ∀ (pd : D) (ph : Header Unit) (h : Header D),
    e.«seal» pd ph = some (some h) →
      h.parent = ph.parent ∧ h.height = ph.height ∧
      h.state_root = ph.state_root ∧ h.extrinsics_root = ph.extrinsics_root

/-! ## Helper lemmas -/

theorem maxStep_le_left {α : Type} (f : α → Nat) (x y : α) :
    f x ≤ f (maxStep f x y) := by
  unfold maxStep
  split <;> omega

theorem foldl_maxStep_le {α : Type} (f : α → Nat) :
    ∀ (xs : List α) (x : α), f x ≤ f (xs.foldl (maxStep f) x)
  | [], _ => Nat.le_refl _
  | y :: ys, x =>
    Nat.le_trans (maxStep_le_left f x y) (foldl_maxStep_le f ys (maxStep f x y))

theorem foldl_maxStep_decomp {α : Type} (f : α → Nat) (xs : List α) :
    ∀ x : α,
      ∃ l₁ l₂, x :: xs = l₁ ++ (xs.foldl (maxStep f) x) :: l₂
        ∧ (∀ a ∈ l₁, f a ≤ f (xs.foldl (maxStep f) x))
        ∧ (∀ a ∈ l₂, f a < f (xs.foldl (maxStep f) x)) := by
  induction xs with
  | nil =>
      intro x
      exact ⟨[], [], rfl, by simp, by simp⟩
  | cons y ys ih =>
      intro x
      by_cases hf : f y < f x
      · have hxy : maxStep f x y = x := by simp [maxStep, hf]
        have hfold : (y :: ys).foldl (maxStep f) x = ys.foldl (maxStep f) x := by
          simp [List.foldl, hxy]
        obtain ⟨l₁, l₂, hdec, hle, hlt⟩ := ih x
        cases l₁ with
        | nil =>
            simp only [List.nil_append] at hdec
            injection hdec with h1 h2
            refine ⟨[], y :: ys, ?_, by simp, ?_⟩
            · rw [hfold, ← h1]
              rfl
            · intro a ha
              rw [hfold, ← h1]
              rcases List.mem_cons.1 ha with rfl | ha
              · exact hf
              · rw [h2] at ha
                have h3 := hlt a ha
                rw [← h1] at h3
                exact h3
        | cons b t =>
            simp only [List.cons_append] at hdec
            injection hdec with h1 h2
            have hxle : f x ≤ f (ys.foldl (maxStep f) x) := h1 ▸ hle b (by simp)
            refine ⟨x :: y :: t, l₂, ?_, ?_, ?_⟩
            · rw [hfold]
              exact congrArg (fun l => x :: y :: l) h2
            · intro a ha
              rw [hfold]
              rcases List.mem_cons.1 ha with rfl | ha
              · exact hxle
              · rcases List.mem_cons.1 ha with rfl | ha
                · exact Nat.le_trans (Nat.le_of_lt hf) hxle
                · exact hle a (by simp [ha])
            · intro a ha
              rw [hfold]
              exact hlt a ha
      · have hxy : maxStep f x y = y := by simp [maxStep, hf]
        have hfold : (y :: ys).foldl (maxStep f) x = ys.foldl (maxStep f) y := by
          simp [List.foldl, hxy]
        obtain ⟨l₁, l₂, hdec, hle, hlt⟩ := ih y
        refine ⟨x :: l₁, l₂, ?_, ?_, ?_⟩
        · rw [hfold]
          exact congrArg (fun l => x :: l) hdec
        · intro a ha
          rw [hfold]
          rcases List.mem_cons.1 ha with rfl | ha
          · exact Nat.le_trans (Nat.le_of_not_lt hf) (foldl_maxStep_le f ys y)
          · exact hle a ha
        · intro a ha
          rw [hfold]
          exact hlt a ha

theorem maxByKeyLast_isLastMax {α : Type} (f : α → Nat) (l : List α)
    (hne : l ≠ []) :
    ∃ m, maxByKeyLast f l = some m ∧ IsLastMaxBy f l m := by
  cases l with
  | nil => exact absurd rfl hne
  | cons x xs =>
      exact ⟨xs.foldl (maxStep f) x, rfl, foldl_maxStep_decomp f xs x⟩

theorem IsLastMaxBy.le_of_mem {α : Type} {f : α → Nat} {l : List α} {m : α}
    (hm : IsLastMaxBy f l m) : ∀ a ∈ l, f a ≤ f m := by
  obtain ⟨l₁, l₂, rfl, h2, h3⟩ := hm
  intro a ha
  rcases List.mem_append.1 ha with h | h
  · exact h2 a h
  · rcases List.mem_cons.1 h with rfl | h
    · exact Nat.le_refl _
    · exact Nat.le_of_lt (h3 a h)

/-! ## Claims -/

/-- C1 (amended): genesis exemption holds for the round-robin engines only —
for `PoaRoundRobinByHeight` and `PoaRoundRobinBySlot`, `validate` returns
`true` on every header of height 0, regardless of the header's consensus
digest, of the parent digest, and of the authority list. (Dictator,
SimplePoa, EvenOnly and AlternatingPowPoa apply their ordinary digest checks
even at height 0.) -/
theorem c1_genesis_always_valid_round_robin
    (sH : PoaRoundRobinByHeight) (sS : PoaRoundRobinBySlot)
    (pdH : ConsensusAuthority) (hH : Header ConsensusAuthority)
    (pdS : SlotDigest) (hS : Header SlotDigest)
    (h0H : hH.height = 0) (h0S : hS.height = 0) :
    sH.validate pdH hH = some true ∧ sS.validate pdS hS = some true := by
  constructor
  · unfold PoaRoundRobinByHeight.validate
    simp [h0H]
  · unfold PoaRoundRobinBySlot.validate
    simp [h0S]

/-- C1 witness: concrete genesis headers (with an empty authority list, a
wrong-looking signer, even a slot-0 digest) are accepted by both round-robin
engines. -/
theorem c1_genesis_always_valid_round_robin_witness :
    PoaRoundRobinByHeight.validate ⟨[]⟩ ConsensusAuthority.Bob
      ⟨1, 0, 2, 3, ConsensusAuthority.Charlie⟩ = some true ∧
    PoaRoundRobinBySlot.validate ⟨[]⟩ ⟨7, ConsensusAuthority.Bob⟩
      ⟨1, 0, 2, 3, ⟨0, ConsensusAuthority.Charlie⟩⟩ = some true :=
  c1_genesis_always_valid_round_robin _ _ _ _ _ _ rfl rfl

/-- C1 counterexample: `DictatorConsensus::validate` has no height check, so a
height-0 header whose digest is not the dictator is rejected — the claim
"for every consensus engine ... height 0 ... validate returns true,
regardless of the header's consensus digest" is false for the code. -/
theorem c1_counterexample_dictator_rejects_genesis :
    (Header.mk 9 0 7 8 ConsensusAuthority.Bob).height = 0 ∧
    DictatorConsensus.validate ⟨ConsensusAuthority.Alice⟩ ConsensusAuthority.Alice
      ⟨9, 0, 7, 8, ConsensusAuthority.Bob⟩ = some false :=
  ⟨rfl, rfl⟩

/-- C2 (amended): `validate` never panics for `DictatorConsensus` and
`SimplePoa`; `PoaRoundRobinByHeight::validate` panics (division by zero in
`% self.authorities.len()`) exactly when the header is non-genesis and the
authority list is empty; `PoaRoundRobinBySlot::validate` panics (the
`checked_sub(1).expect(..)`) exactly when the header is non-genesis, the
authority list is non-empty and the digest slot is 0. In every other case a
boolean is returned. -/
theorem c2_validate_panic_characterization
    (sD : DictatorConsensus) (sP : SimplePoa)
    (sH : PoaRoundRobinByHeight) (sS : PoaRoundRobinBySlot)
    (pdA : ConsensusAuthority) (hA : Header ConsensusAuthority)
    (pdS : SlotDigest) (hS : Header SlotDigest) :
    (sD.validate pdA hA).isSome = true ∧
    (sP.validate pdA hA).isSome = true ∧
    (sH.validate pdA hA = none ↔ hA.height ≠ 0 ∧ sH.authorities = []) ∧
    (sS.validate pdS hS = none ↔
      hS.height ≠ 0 ∧ sS.authorities ≠ [] ∧ hS.consensus_digest.slot = 0) := by
  refine ⟨rfl, rfl, ?_, ?_⟩
  · unfold PoaRoundRobinByHeight.validate
    by_cases h0 : hA.height = 0
    · simp [h0]
    · by_cases he : sH.authorities = []
      · simp [h0, he]
      · simp [h0, he, List.isEmpty_iff]
  · unfold PoaRoundRobinBySlot.validate
    by_cases h0 : hS.height = 0
    · simp [h0]
    · by_cases he : sS.authorities = []
      · simp [h0, he, List.isEmpty_iff]
      · by_cases hslot : hS.consensus_digest.slot = 0
        · simp [h0, he, hslot, List.isEmpty_iff]
        · simp [h0, he, hslot, List.isEmpty_iff]

/-- C2 counterexample: at a non-genesis header whose digest slot is 0,
`PoaRoundRobinBySlot::validate` hits
`slot.checked_sub(1).expect("slot need to be at least 1")` and panics
(modelled `none`) instead of returning `false` as the claim requires. -/
theorem c2_counterexample_slot_zero_panics :
    PoaRoundRobinBySlot.validate ⟨[ConsensusAuthority.Alice]⟩
      ⟨5, ConsensusAuthority.Alice⟩
      ⟨1, 1, 2, 3, ⟨0, ConsensusAuthority.Alice⟩⟩ = none :=
  rfl

/-- C3: the failing input for the code bug — with an inner `SimplePoa` whose
authority list is empty and an even-height partial header, the inner seal
returns `None` (unsealable), and `AlternatingPowPoa::seal` `.unwrap()`s that
`None` and panics (modelled `none`) instead of returning `None`
(`some none`). -/
theorem c3_alternating_seal_panics_on_empty_authorities :
    (Header.mk 1 0 2 3 ()).height % 2 = 0 ∧
    SimplePoa.«seal» ⟨[]⟩ ConsensusAuthority.Alice ⟨1, 0, 2, 3, ()⟩ = some none ∧
    AlternatingPowPoa.«seal» ⟨trivialPowEngine, ⟨[]⟩⟩ (PowOrPoaDigest.Pow 0)
      ⟨1, 0, 2, 3, ()⟩ = none :=
  ⟨rfl, rfl, rfl⟩

/-- C4 (amended): for each fork-choice rule, `best_chain` on a non-empty
candidate list returns the LATEST candidate in list order attaining the
maximal score under that rule's scoring function (Rust's `max_by_key` keeps
the last of several equally-maximal elements), so a later candidate with an
equal score DOES displace an earlier one. -/
theorem c4_best_chain_returns_latest_max (hashH : Header Nat → Nat)
    (cands : List (List (Header Nat))) (hne : cands ≠ []) :
    (∃ m, LongestChainRule.best_chain cands = some m
      ∧ (∀ c ∈ cands, c.length ≤ m.length)
      ∧ IsLastMaxBy List.length cands m) ∧
    (∃ m, HeaviestChainRule.best_chain hashH cands = some m
      ∧ (∀ c ∈ cands, chainWork64 hashH c ≤ chainWork64 hashH m)
      ∧ IsLastMaxBy (chainWork64 hashH) cands m) ∧
    (∃ m, MostBlocksWithEvenHash.best_chain hashH cands = some m
      ∧ (∀ c ∈ cands, evenHashCount hashH c ≤ evenHashCount hashH m)
      ∧ IsLastMaxBy (evenHashCount hashH) cands m) := by
  refine ⟨?_, ?_, ?_⟩
  · obtain ⟨m, h1, h2⟩ := maxByKeyLast_isLastMax List.length cands hne
    exact ⟨m, h1, h2.le_of_mem, h2⟩
  · obtain ⟨m, h1, h2⟩ := maxByKeyLast_isLastMax (chainWork64 hashH) cands hne
    exact ⟨m, h1, h2.le_of_mem, h2⟩
  · obtain ⟨m, h1, h2⟩ := maxByKeyLast_isLastMax (evenHashCount hashH) cands hne
    exact ⟨m, h1, h2.le_of_mem, h2⟩

/-- C4 witness: the amended claim applied to two concrete equal-length
candidate chains. -/
theorem c4_best_chain_returns_latest_max_witness :
    ∃ m, LongestChainRule.best_chain
        [[Header.mk 1 1 1 1 1], [Header.mk 2 2 2 2 2]] = some m
      ∧ (∀ c ∈ [[Header.mk 1 1 1 1 1], [Header.mk 2 2 2 2 2]], c.length ≤ m.length)
      ∧ IsLastMaxBy List.length [[Header.mk 1 1 1 1 1], [Header.mk 2 2 2 2 2]] m :=
  (c4_best_chain_returns_latest_max Header.parent
    [[Header.mk 1 1 1 1 1], [Header.mk 2 2 2 2 2]] (by simp)).1

/-- C4 counterexample: on two distinct single-header candidates (equal
score under every rule), `LongestChainRule::best_chain` returns the SECOND
candidate — the later equal-scoring candidate displaces the earlier one, so
the "earliest candidate in list order" claim is false for the code. -/
theorem c4_counterexample_tie_goes_to_later :
    LongestChainRule.best_chain
        [[Header.mk 1 1 1 1 1], [Header.mk 2 2 2 2 2]]
      = some [Header.mk 2 2 2 2 2] ∧
    ([Header.mk 1 1 1 1 1] : List (Header Nat)) ≠ [Header.mk 2 2 2 2 2] ∧
    ([Header.mk 1 1 1 1 1] : List (Header Nat)).length
      = ([Header.mk 2 2 2 2 2] : List (Header Nat)).length :=
  ⟨rfl, by decide, rfl⟩

/-- C5: for `PoaRoundRobinBySlot` with a non-empty authority list, a
non-genesis header with digest slot ≥ 1 validates `true` iff its signature is
`authorities[(slot-1) mod len]` AND its slot strictly exceeds the parent
digest's slot; consequently a repeated or decreasing slot is rejected
regardless of the signer. -/
theorem c5_round_robin_by_slot_validate_iff (s : PoaRoundRobinBySlot)
    (pd : SlotDigest) (h : Header SlotDigest)
    (hne : s.authorities ≠ []) (h0 : h.height ≠ 0)
    (hslot : 1 ≤ h.consensus_digest.slot) :
    (s.validate pd h = some true ↔
      (h.consensus_digest.signature =
        s.authorities.getD ((h.consensus_digest.slot - 1) % s.authorities.length)
          ConsensusAuthority.Alice
       ∧ pd.slot < h.consensus_digest.slot)) ∧
    (h.consensus_digest.slot ≤ pd.slot → s.validate pd h ≠ some true) := by
  have hiff : s.validate pd h = some true ↔
      (h.consensus_digest.signature =
        s.authorities.getD ((h.consensus_digest.slot - 1) % s.authorities.length)
          ConsensusAuthority.Alice
       ∧ pd.slot < h.consensus_digest.slot) := by
    unfold PoaRoundRobinBySlot.validate
    have hs0 : h.consensus_digest.slot ≠ 0 := by omega
    simp only [h0, if_false, List.isEmpty_iff, hne, hs0,
      Option.some_inj, decide_eq_true_eq]
    constructor
    · rintro ⟨h1, h2⟩
      exact ⟨h1.symm, h2⟩
    · rintro ⟨h1, h2⟩
      exact ⟨h1.symm, h2⟩
  refine ⟨hiff, ?_⟩
  intro hle hval
  have := (hiff.1 hval).2
  omega

/-- C5 witness: authorities `[Alice, Bob]`, parent slot 1, header slot 5
signed by Alice (slot skipping from 1 to 5; `(5-1) mod 2 = 0` selects Alice):
accepted. -/
theorem c5_round_robin_by_slot_validate_iff_witness :
    PoaRoundRobinBySlot.validate ⟨[ConsensusAuthority.Alice, ConsensusAuthority.Bob]⟩
      ⟨1, ConsensusAuthority.Alice⟩
      ⟨1, 2, 3, 4, ⟨5, ConsensusAuthority.Alice⟩⟩ = some true :=
  (c5_round_robin_by_slot_validate_iff ⟨[ConsensusAuthority.Alice, ConsensusAuthority.Bob]⟩
    ⟨1, ConsensusAuthority.Alice⟩ ⟨1, 2, 3, 4, ⟨5, ConsensusAuthority.Alice⟩⟩
    (by decide) (by decide) (by decide)).1.mpr ⟨rfl, by decide⟩

/-- C6: for `PoaRoundRobinByHeight` with a non-empty authority list, a
non-genesis header validates `true` iff its digest is
`authorities[(height-1) mod n]` (so every other signer is rejected); `seal`
returns `None` at genesis and otherwise stamps exactly that authority. -/
theorem c6_round_robin_by_height_characterization (s : PoaRoundRobinByHeight)
    (pd : ConsensusAuthority) (h : Header ConsensusAuthority) (ph : Header Unit)
    (hne : s.authorities ≠ []) :
    (h.height ≠ 0 →
      (s.validate pd h = some true ↔
        h.consensus_digest =
          s.authorities.getD ((h.height - 1) % s.authorities.length)
            ConsensusAuthority.Alice)) ∧
    (ph.height = 0 → s.«seal» pd ph = some none) ∧
    (ph.height ≠ 0 → s.«seal» pd ph =
      some (some (ph.withDigest
        (s.authorities.getD ((ph.height - 1) % s.authorities.length)
          ConsensusAuthority.Alice)))) := by
  refine ⟨?_, ?_, ?_⟩
  · intro h0
    unfold PoaRoundRobinByHeight.validate
    simp only [h0, if_false, List.isEmpty_iff, hne, Option.some_inj,
      decide_eq_true_eq]
    exact eq_comm
  · intro h0
    unfold PoaRoundRobinByHeight.«seal»
    simp [h0]
  · intro h0
    unfold PoaRoundRobinByHeight.«seal»
    simp [h0, List.isEmpty_iff, hne]

/-- C6 witness: authorities `[Alice, Bob]` — Alice is the unique signer at
height 1, sealing at genesis is refused, and sealing at height 2 stamps
Bob. -/
theorem c6_round_robin_by_height_characterization_witness :
    PoaRoundRobinByHeight.validate
      ⟨[ConsensusAuthority.Alice, ConsensusAuthority.Bob]⟩
      ConsensusAuthority.Alice ⟨5, 1, 2, 3, ConsensusAuthority.Alice⟩ = some true ∧
    PoaRoundRobinByHeight.«seal»
      ⟨[ConsensusAuthority.Alice, ConsensusAuthority.Bob]⟩
      ConsensusAuthority.Alice ⟨5, 0, 2, 3, ()⟩ = some none ∧
    PoaRoundRobinByHeight.«seal»
      ⟨[ConsensusAuthority.Alice, ConsensusAuthority.Bob]⟩
      ConsensusAuthority.Alice ⟨5, 2, 2, 3, ()⟩ =
      some (some ⟨5, 2, 2, 3, ConsensusAuthority.Bob⟩) :=
  ⟨((c6_round_robin_by_height_characterization _ _
      ⟨5, 1, 2, 3, ConsensusAuthority.Alice⟩ ⟨5, 0, 2, 3, ()⟩
      (by decide)).1 (by decide)).mpr rfl,
   (c6_round_robin_by_height_characterization _ ConsensusAuthority.Alice
      ⟨5, 1, 2, 3, ConsensusAuthority.Alice⟩ ⟨5, 0, 2, 3, ()⟩
      (by decide)).2.1 rfl,
   (c6_round_robin_by_height_characterization _ ConsensusAuthority.Alice
      ⟨5, 1, 2, 3, ConsensusAuthority.Alice⟩ ⟨5, 2, 2, 3, ()⟩
      (by decide)).2.2 (by decide)⟩

/-- C7: the `EvenOnly` decorator — `validate` accepts iff the inner engine
accepts AND the `state_root` is even; `seal` is `None` on an odd partial
`state_root` and otherwise is exactly the inner engine's seal result; and when
the inner engine preserves the frame fields, every header returned by `seal`
has an even `state_root`. -/
theorem c7_even_only_characterization (D : Type) (inner : ConsensusEngine D)
    (pd : D) (h : Header D) (ph : Header Unit) :
    ((EvenOnly.validate ⟨inner⟩ pd h = some true) ↔
      (inner.validate pd h = some true ∧ h.state_root % 2 = 0)) ∧
    (ph.state_root % 2 ≠ 0 → EvenOnly.«seal» ⟨inner⟩ pd ph = some none) ∧
    (ph.state_root % 2 = 0 → EvenOnly.«seal» ⟨inner⟩ pd ph = inner.«seal» pd ph) ∧
    (PreservesFrame inner →
      ∀ h', EvenOnly.«seal» ⟨inner⟩ pd ph = some (some h') →
        h'.state_root % 2 = 0) := by
  refine ⟨?_, ?_, ?_, ?_⟩
  · unfold EvenOnly.validate
    cases hi : inner.validate pd h with
    | none => simp [hi]
    | some b =>
        cases b with
        | false => simp [hi]
        | true => simp [hi, decide_eq_true_eq]
  · intro hodd
    unfold EvenOnly.«seal»
    simp [hodd]
  · intro heven
    unfold EvenOnly.«seal»
    simp [heven]
  · intro hp h' hseal
    unfold EvenOnly.«seal» at hseal
    by_cases heven : ph.state_root % 2 = 0
    · rw [if_neg (by simp [heven])] at hseal
      have hfields := hp pd ph h' hseal
      rw [hfields.2.2.1]
      exact heven
    · rw [if_pos heven] at hseal
      simp at hseal

/-- C7 witness: with the dictator engine (dictator Alice) inside, a header
with even `state_root` signed by Alice is accepted, and sealing a partial
header with odd `state_root` is refused. -/
theorem c7_even_only_characterization_witness :
    EvenOnly.validate ⟨(DictatorConsensus.mk ConsensusAuthority.Alice).engine⟩
      ConsensusAuthority.Alice ⟨1, 1, 4, 3, ConsensusAuthority.Alice⟩ = some true ∧
    EvenOnly.«seal» ⟨(DictatorConsensus.mk ConsensusAuthority.Alice).engine⟩
      ConsensusAuthority.Alice ⟨1, 1, 5, 3, ()⟩ = some none :=
  ⟨(c7_even_only_characterization ConsensusAuthority
      (DictatorConsensus.mk ConsensusAuthority.Alice).engine
      ConsensusAuthority.Alice ⟨1, 1, 4, 3, ConsensusAuthority.Alice⟩
      ⟨1, 1, 5, 3, ()⟩).1.mpr ⟨rfl, rfl⟩,
   (c7_even_only_characterization ConsensusAuthority
      (DictatorConsensus.mk ConsensusAuthority.Alice).engine
      ConsensusAuthority.Alice ⟨1, 1, 4, 3, ConsensusAuthority.Alice⟩
      ⟨1, 1, 5, 3, ()⟩).2.1 (by decide)⟩

/-- C9: `AlternatingPowPoa::validate` dispatch — a Pow digest at even height
or a Poa digest at odd height is rejected with `false` for every choice of
inner engines (so neither inner engine is consulted); a matching variant is
delegated to the corresponding inner engine on the reconstructed monomorphic
header (with the source's sentinel parent digests `Alice` resp. `0`). -/
theorem c9_alternating_validate_dispatch (pow : ConsensusEngine Nat)
    (poa : SimplePoa) (pd : PowOrPoaDigest) (h : Header PowOrPoaDigest) :
    (∀ n, h.height % 2 = 0 → h.consensus_digest = PowOrPoaDigest.Pow n →
      AlternatingPowPoa.validate ⟨pow, poa⟩ pd h = some false) ∧
    (∀ a, h.height % 2 = 1 → h.consensus_digest = PowOrPoaDigest.Poa a →
      AlternatingPowPoa.validate ⟨pow, poa⟩ pd h = some false) ∧
    (∀ a, h.height % 2 = 0 → h.consensus_digest = PowOrPoaDigest.Poa a →
      AlternatingPowPoa.validate ⟨pow, poa⟩ pd h =
        poa.validate ConsensusAuthority.Alice (h.withDigest a)) ∧
    (∀ n, h.height % 2 = 1 → h.consensus_digest = PowOrPoaDigest.Pow n →
      AlternatingPowPoa.validate ⟨pow, poa⟩ pd h =
        pow.validate 0 (h.withDigest n)) := by
  refine ⟨?_, ?_, ?_, ?_⟩
  · intro n heven hdig
    unfold AlternatingPowPoa.validate
    simp [heven, hdig, PowOrPoaDigest.tryIntoPoa]
  · intro a hodd hdig
    have heven : ¬ h.height % 2 = 0 := by omega
    unfold AlternatingPowPoa.validate
    simp [heven, hdig, PowOrPoaDigest.tryIntoPow]
  · intro a heven hdig
    unfold AlternatingPowPoa.validate
    simp [heven, hdig, PowOrPoaDigest.tryIntoPoa]
  · intro n hodd hdig
    have heven : ¬ h.height % 2 = 0 := by omega
    unfold AlternatingPowPoa.validate
    simp [heven, hdig, PowOrPoaDigest.tryIntoPow]

/-- C9 witness: a Pow-tagged digest at an even height is rejected without
consulting the inner engines. -/
theorem c9_alternating_validate_dispatch_witness :
    AlternatingPowPoa.validate ⟨trivialPowEngine, ⟨[ConsensusAuthority.Alice]⟩⟩
      (PowOrPoaDigest.Poa ConsensusAuthority.Alice)
      ⟨1, 2, 3, 4, PowOrPoaDigest.Pow 9⟩ = some false :=
  (c9_alternating_validate_dispatch trivialPowEngine ⟨[ConsensusAuthority.Alice]⟩
    (PowOrPoaDigest.Poa ConsensusAuthority.Alice)
    ⟨1, 2, 3, 4, PowOrPoaDigest.Pow 9⟩).1 9 rfl rfl

theorem dictator_engine_preservesFrame (s : DictatorConsensus) :
    PreservesFrame s.engine := by
  intro pd ph h hseal
  simp only [DictatorConsensus.engine, DictatorConsensus.«seal»,
    Option.some_inj] at hseal
  subst hseal
  exact ⟨rfl, rfl, rfl, rfl⟩

theorem simplePoa_engine_preservesFrame (s : SimplePoa) :
    PreservesFrame s.engine := by
  intro pd ph h hseal
  simp only [SimplePoa.engine, SimplePoa.«seal»] at hseal
  split at hseal
  · simp at hseal
  · simp only [Option.some_inj] at hseal
    subst hseal
    exact ⟨rfl, rfl, rfl, rfl⟩

theorem byHeight_engine_preservesFrame (s : PoaRoundRobinByHeight) :
    PreservesFrame s.engine := by
  intro pd ph h hseal
  simp only [PoaRoundRobinByHeight.engine, PoaRoundRobinByHeight.«seal»] at hseal
  split at hseal
  · simp at hseal
  · split at hseal
    · simp at hseal
    · simp only [Option.some_inj] at hseal
      subst hseal
      exact ⟨rfl, rfl, rfl, rfl⟩

theorem bySlot_engine_preservesFrame (s : PoaRoundRobinBySlot) :
    PreservesFrame s.engine := by
  intro pd ph h hseal
  simp only [PoaRoundRobinBySlot.engine, PoaRoundRobinBySlot.«seal»] at hseal
  split at hseal
  · simp at hseal
  · simp only [Option.some_inj] at hseal
    subst hseal
    exact ⟨rfl, rfl, rfl, rfl⟩

theorem evenOnly_engine_preservesFrame {D : Type} (inner : ConsensusEngine D)
    (hp : PreservesFrame inner) : PreservesFrame (EvenOnly.engine ⟨inner⟩) := by
  intro pd ph h hseal
  simp only [EvenOnly.engine, EvenOnly.«seal»] at hseal
  split at hseal
  · simp at hseal
  · exact hp pd ph h hseal

theorem alternating_engine_preservesFrame (pow : ConsensusEngine Nat)
    (poa : SimplePoa) (hp : PreservesFrame pow) :
    PreservesFrame (AlternatingPowPoa.engine ⟨pow, poa⟩) := by
  intro pd ph h hseal
  simp only [AlternatingPowPoa.engine, AlternatingPowPoa.«seal»] at hseal
  split at hseal
  · cases hps : SimplePoa.«seal» poa ConsensusAuthority.Alice ph with
    | none => rw [hps] at hseal; simp at hseal
    | some o =>
        cases o with
        | none => rw [hps] at hseal; simp at hseal
        | some h2 =>
            rw [hps] at hseal
            simp only [Option.some_inj] at hseal
            subst hseal
            exact simplePoa_engine_preservesFrame poa ConsensusAuthority.Alice ph h2 hps
  · cases hps : pow.«seal» 0 ph with
    | none => rw [hps] at hseal; simp at hseal
    | some o =>
        cases o with
        | none => rw [hps] at hseal; simp at hseal
        | some h2 =>
            rw [hps] at hseal
            simp only [Option.some_inj] at hseal
            subst hseal
            exact hp 0 ph h2 hps

/-- C10: whenever any engine's `seal` returns `Some(header)`, the returned
header's `parent`, `height`, `state_root` and `extrinsics_root` equal the
partial header's — sealing only attaches a digest. For the two composite
engines the property holds given that the wrapped engine(s) with unknown code
(an arbitrary inner engine, the external PoW engine) have it as well. -/
theorem c10_seal_preserves_frame :
    (∀ s : DictatorConsensus, PreservesFrame s.engine) ∧
    (∀ s : SimplePoa, PreservesFrame s.engine) ∧
    (∀ s : PoaRoundRobinByHeight, PreservesFrame s.engine) ∧
    (∀ s : PoaRoundRobinBySlot, PreservesFrame s.engine) ∧
    (∀ (D : Type) (inner : ConsensusEngine D),
      PreservesFrame inner → PreservesFrame (EvenOnly.engine ⟨inner⟩)) ∧
    (∀ (pow : ConsensusEngine Nat) (poa : SimplePoa),
      PreservesFrame pow → PreservesFrame (AlternatingPowPoa.engine ⟨pow, poa⟩)) :=
  ⟨dictator_engine_preservesFrame, simplePoa_engine_preservesFrame,
   byHeight_engine_preservesFrame, bySlot_engine_preservesFrame,
   fun _ => evenOnly_engine_preservesFrame,
   alternating_engine_preservesFrame⟩

/-- C10 witness: the frame fields of a concrete dictator-sealed header equal
those of the partial header it was sealed from. -/
theorem c10_seal_preserves_frame_witness :
    (Header.mk 1 2 4 6 ConsensusAuthority.Alice).parent = (Header.mk 1 2 4 6 ()).parent ∧
    (Header.mk 1 2 4 6 ConsensusAuthority.Alice).height = (Header.mk 1 2 4 6 ()).height ∧
    (Header.mk 1 2 4 6 ConsensusAuthority.Alice).state_root = (Header.mk 1 2 4 6 ()).state_root ∧
    (Header.mk 1 2 4 6 ConsensusAuthority.Alice).extrinsics_root = (Header.mk 1 2 4 6 ()).extrinsics_root :=
  c10_seal_preserves_frame.1 ⟨ConsensusAuthority.Alice⟩ ConsensusAuthority.Alice
    (Header.mk 1 2 4 6 ()) (Header.mk 1 2 4 6 ConsensusAuthority.Alice) rfl

theorem foldl_work_eq (hashH : Header Nat → Nat) (chain : List (Header Nat)) :
    ∀ acc : Nat, acc + specChainWork hashH chain < 2 ^ 64 →
      chain.foldl (fun acc h => (acc + headerWork hashH h) % 2 ^ 64) acc
        = acc + specChainWork hashH chain := by
  induction chain with
  | nil =>
      intro acc _
      simp [specChainWork]
  | cons x xs ih =>
      intro acc hlt
      have hspec : specChainWork hashH (x :: xs)
          = headerWork hashH x + specChainWork hashH xs := by
        simp [specChainWork]
      rw [hspec] at hlt
      have h1 : (acc + headerWork hashH x) % 2 ^ 64 = acc + headerWork hashH x :=
        Nat.mod_eq_of_lt (by omega)
      have h2 : (x :: xs).foldl (fun acc h => (acc + headerWork hashH h) % 2 ^ 64) acc
          = xs.foldl (fun acc h => (acc + headerWork hashH h) % 2 ^ 64)
              ((acc + headerWork hashH x) % 2 ^ 64) := rfl
      rw [h2, h1, ih (acc + headerWork hashH x) (by omega), hspec]
      omega

/-- C8 (amended): per-header work is the saturating
`max(0, THRESHOLD - hash(header))`; the chain score is a `u64` sum, equal to
the exact sum of per-header works PROVIDED that exact sum fits in a `u64`
(the source's `sum::<u64>()` wraps otherwise); a chain all of whose headers
hash at or above `THRESHOLD` scores 0; and, provided the extended sum still
fits in a `u64`, appending a header with hash below `THRESHOLD` never
decreases the score. -/
theorem c8_heaviest_chain_work_arithmetic :
    (∀ (hashH : Header Nat → Nat) (h : Header Nat),
      (headerWork hashH h : Int) = max 0 ((THRESHOLD : Int) - (hashH h : Int))) ∧
    (∀ (hashH : Header Nat → Nat) (chain : List (Header Nat)),
      specChainWork hashH chain < 2 ^ 64 →
      chainWork64 hashH chain = specChainWork hashH chain) ∧
    (∀ (hashH : Header Nat → Nat) (chain : List (Header Nat)),
      (∀ h ∈ chain, THRESHOLD ≤ hashH h) → chainWork64 hashH chain = 0) ∧
    (∀ (hashH : Header Nat → Nat) (chain : List (Header Nat)) (h : Header Nat),
      hashH h < THRESHOLD →
      specChainWork hashH (chain ++ [h]) < 2 ^ 64 →
      chainWork64 hashH chain ≤ chainWork64 hashH (chain ++ [h])) := by
  have hb : ∀ (hashH : Header Nat → Nat) (chain : List (Header Nat)),
      specChainWork hashH chain < 2 ^ 64 →
      chainWork64 hashH chain = specChainWork hashH chain := by
    intro hashH chain hlt
    have := foldl_work_eq hashH chain 0 (by omega)
    simpa [chainWork64] using this
  have happ : ∀ (hashH : Header Nat → Nat) (chain : List (Header Nat)) (h : Header Nat),
      specChainWork hashH (chain ++ [h])
        = specChainWork hashH chain + headerWork hashH h := by
    intro hashH chain h
    simp [specChainWork]
  refine ⟨?_, hb, ?_, ?_⟩
  · intro hashH h
    unfold headerWork
    rcases Nat.le_total (hashH h) THRESHOLD with hle | hle
    · rw [Nat.cast_sub hle]
      exact (max_eq_right (by omega)).symm
    · rw [Nat.sub_eq_zero_of_le hle, Nat.cast_zero]
      exact (max_eq_left (by omega)).symm
  · intro hashH chain hall
    have hzero : specChainWork hashH chain = 0 := by
      unfold specChainWork
      apply List.sum_eq_zero
      intro w hw
      obtain ⟨h, hh, rfl⟩ := List.mem_map.1 hw
      exact Nat.sub_eq_zero_of_le (hall h hh)
    rw [hb hashH chain (by omega), hzero]
  · intro hashH chain h _ hlt
    have h1 : specChainWork hashH chain < 2 ^ 64 := by
      have := happ hashH chain h
      omega
    rw [hb hashH chain h1, hb hashH (chain ++ [h]) hlt, happ hashH chain h]
    omega

/-- C8 witness: appending one below-threshold header to the empty chain under
the hash function reading `extrinsics_root` does not decrease the (here
overflow-free) score. -/
theorem c8_heaviest_chain_work_arithmetic_witness :
    Header.extrinsics_root (Header.mk 0 0 0 5 0) < THRESHOLD ∧
    chainWork64 Header.extrinsics_root []
      ≤ chainWork64 Header.extrinsics_root ([] ++ [Header.mk 0 0 0 5 0]) :=
  ⟨by decide,
   c8_heaviest_chain_work_arithmetic.2.2.2 Header.extrinsics_root []
     (Header.mk 0 0 0 5 0) (by decide) (by decide)⟩

/-- 100 distinct headers whose hashes (their `extrinsics_root`) are
0,…,99, each far below `THRESHOLD`, so each contributes close to the maximal
work; their total exact work `100*THRESHOLD - 4950` still fits in a `u64`. -/
def c8WrapChain : List (Header Nat) := (List.range 100).map (fun i => Header.mk 0 0 0 i 0)

set_option maxRecDepth 10000 in
/-- C8 counterexample: appending a 101st below-threshold header pushes the
exact sum past `2^64`, the source's `u64` sum wraps, and the score DECREASES
— refuting both "the sum does not wrap" and "appending a header with hash
below THRESHOLD never decreases the score". -/
theorem c8_counterexample_sum_wraps :
    (∀ h ∈ c8WrapChain ++ [Header.mk 0 0 0 100 0],
      Header.extrinsics_root h < THRESHOLD) ∧
    chainWork64 Header.extrinsics_root (c8WrapChain ++ [Header.mk 0 0 0 100 0])
      < chainWork64 Header.extrinsics_root c8WrapChain := by
  constructor
  · decide
  · decide
